import Mathlib

/-!
Shallow embedding of the hexagonal-grid core of the VibeCity repository
(`src/hex/HexGrid.ts`, `src/hex/TileRenderer.ts`, the `TileType` enum).

Modelling conventions:
* JavaScript `number` arithmetic is modelled exactly: by `ℚ` wherever the
  source only adds, multiplies, divides and compares, and by `ℝ` where the
  irrational constant `Math.sqrt(3)` enters (`axialToWorld`, `worldToAxial`,
  `axialRound`).
* `Math.round x` is `round x = ⌊x + 1/2⌋` (both send halves toward `+∞`),
  `Math.abs` is `|·|`, `Math.ceil` is `⌈·⌉`, `Math.min` / `Math.max` are
  `min` / `max`, `Math.pow` is `^`.
* The `Map<string, HexState>` keyed by the string `"q,r"` is modelled as a
  function `ℤ × ℤ → Option HexCell` (the key string and the coordinate pair
  determine each other), together with the finite set `keys` of populated
  coordinates, which `update` iterates over.
* THREE.js render resources (geometry buffers, vertex colours, materials,
  the render-only field `colorIndex`) are not modelled; a tile mesh is
  modelled as the parameter record it is created from
  (`TileRenderer.createTileMesh`), and disposal as dropping the handle.
* `performance.now() / 1000` is passed explicitly as the `now` / `t`
  argument of the operations that read it.
-/

namespace VibeCity

/-- Tile kinds (`enum TileType`). -/
inductive TileType where
  | Empty
  | Road
  | Water
  | Grass
  | Stone
deriving DecidableEq

/-- Handle to a placed tile mesh: it records the parameters
`TileRenderer.createTileMesh(q, r, tileType)` was called with; the actual
extruded geometry is render-only and not modelled. -/
structure TileMesh where
  q : ℤ
  r : ℤ
  tileType : TileType
deriving DecidableEq

/-- Embeds `TileRenderer.createTileMesh`. -/
def createTileMesh (q r : ℤ) (tileType : TileType) : TileMesh :=
  ⟨q, r, tileType⟩

/-- Embeds `HexUtils.axialDistance(q1, r1, q2, r2)`: cube-coordinate Manhattan
distance `(|dq| + |dr| + |dq + dr|) / 2`, in exact arithmetic. -/
def axialDistance (q1 r1 q2 r2 : ℚ) : ℚ :=
  (|q1 - q2| + |r1 - r2| + |q1 + r1 - q2 - r2|) / 2

/-- One propagating wave (`interface Wave` of HexGrid.ts). -/
structure Wave where
  q : ℤ
  r : ℤ
  startTime : ℚ
  speed : ℚ
  width : ℚ
  decay : ℚ
deriving DecidableEq

/-- The wave record pushed by `HexGrid.triggerWave`
(`speed: 25.0, width: 1.5, decay: 0.9`). -/
def newWave (q r : ℤ) (now : ℚ) : Wave :=
  { q := q, r := r, startTime := now, speed := 25, width := 3 / 2, decay := 9 / 10 }

/-- Per-hex state (`interface HexState`); the render-only field `colorIndex`
is not modelled. -/
structure HexCell where
  q : ℤ
  r : ℤ
  intensity : ℚ
  targetIntensity : ℚ
  tileType : TileType
  tileMesh : Option TileMesh
deriving DecidableEq

/-- The mutable state of `class HexGrid` (render handles aside). -/
structure Grid where
  keys : Finset (ℤ × ℤ)
  hexes : (ℤ × ℤ) → Option HexCell
  activeHexes : Finset (ℤ × ℤ)
  waves : List Wave
  hoveredHex : Option (ℤ × ℤ)

/-- The row of keys created by the inner `r` loop of `HexGrid.generateGrid`
for a fixed `q`: `r` runs from `max(-radius, -q-radius)` to
`min(radius, -q+radius)`. -/
def gridRow (radius q : ℤ) : Finset (ℤ × ℤ) :=
  (Finset.Icc (max (-radius) (-q - radius)) (min radius (-q + radius))).image fun r => (q, r)

/-- The key set populated by `HexGrid.generateGrid(radius)`: `q` runs from
`-radius` to `radius`. -/
def gridKeys (radius : ℤ) : Finset (ℤ × ℤ) :=
  (Finset.Icc (-radius) radius).biUnion fun q => gridRow radius q

/-- The freshly created state of one hex: `intensity = 0`,
`targetIntensity = 0`, `tileType = Empty`, no tile mesh. -/
def initialHex (p : ℤ × ℤ) : HexCell :=
  { q := p.1, r := p.2, intensity := 0, targetIntensity := 0,
    tileType := TileType.Empty, tileMesh := none }

/-- Constructor `new HexGrid(radius)`: `generateGrid` populates every key of
`gridKeys radius` with a fresh cell; no waves, no hover, no active hexes. -/
def mkGrid (radius : ℤ) : Grid :=
  { keys := gridKeys radius
    hexes := fun p => if p ∈ gridKeys radius then some (initialHex p) else none
    activeHexes := ∅
    waves := []
    hoveredHex := none }

/-- Embeds `HexGrid.updateHexIntensity(q, r, intensity)`: clamp the argument to
`[0, 1]`, store it in `targetIntensity`, add the key to the active set;
no-op when the cell is absent. -/
def updateHexIntensity (g : Grid) (q r : ℤ) (intensity : ℚ) : Grid :=
  match g.hexes (q, r) with
  | none => g
  | some _ =>
    { g with
      hexes := fun p =>
        if p = (q, r) then
          (g.hexes p).map fun h => { h with targetIntensity := max 0 (min 1 intensity) }
        else g.hexes p
      activeHexes := insert (q, r) g.activeHexes }

/-- Embeds `HexGrid.setHover(q, r)`: return unchanged if `(q, r)` is already
hovered; otherwise clear the previous hover, then either hover `(q, r)`
(when present) or record that nothing is hovered. -/
def setHover (g : Grid) (q r : ℤ) : Grid :=
  if g.hoveredHex = some (q, r) then g
  else
    let g1 :=
      match g.hoveredHex with
      | some p => updateHexIntensity g p.1 p.2 0
      | none => g
    if (g1.hexes (q, r)).isSome then
      updateHexIntensity { g1 with hoveredHex := some (q, r) } q r 1
    else
      { g1 with hoveredHex := none }

/-- Embeds `HexGrid.triggerWave(q, r)` at clock value `now = performance.now()/1000`:
push a new wave, then drop the oldest one when more than 5 are held. -/
def triggerWave (g : Grid) (q r : ℤ) (now : ℚ) : Grid :=
  let waves1 := g.waves ++ [newWave q r now]
  { g with waves := if waves1.length > 5 then waves1.tail else waves1 }

/-- Embeds `HexGrid.placeTile(q, r, type)`: dispose any existing tile mesh, create a
new one exactly when `type ≠ Empty`, always record `tileType := type`;
no-op when the cell is absent. -/
def placeTile (g : Grid) (q r : ℤ) (type : TileType) : Grid :=
  match g.hexes (q, r) with
  | none => g
  | some hex =>
    let hex1 : HexCell := { hex with tileMesh := none }
    let hex2 : HexCell :=
      if type ≠ TileType.Empty then
        { hex1 with tileMesh := some (createTileMesh q r type) }
      else hex1
    { g with
      hexes := fun p => if p = (q, r) then some { hex2 with tileType := type } else g.hexes p }

/-- One wave's contribution to the cell at `(hq, hr)` at clock `t` (the inner
wave loop of `HexGrid.update`): cells farther than 6 from the wave origin are
skipped (`if (dist > 6) continue`); otherwise a cubic falloff of the distance
`diff` to the wave front, scaled by 2, applies whenever `diff < width`. -/
def waveContribution (t : ℚ) (hq hr : ℤ) (w : Wave) : ℚ :=
  let dist := axialDistance hq hr w.q w.r
  if dist > 6 then 0
  else
    let waveDist := (t - w.startTime) * w.speed
    let diff := |dist - waveDist|
    if diff < w.width then (1 - diff / w.width) ^ 3 * 2 else 0

/-- Total wave intensity at a cell (`HexGrid.update`): the sum of the
contributions of all held waves, clamped to at most 1
(`waveIntensity = Math.min(waveIntensity, 1.0)`). -/
def waveIntensityAt (t : ℚ) (hq hr : ℤ) (waves : List Wave) : ℚ :=
  min ((waves.map fun w => waveContribution t hq hr w).sum) 1

/-- The per-wave activation test of `HexGrid.update`: the cell at `p` is
added to the active set when `dist ≤ ⌈waveDist + width⌉` and
`dist ≥ waveDist - width`. -/
abbrev waveActivates (t : ℚ) (w : Wave) (p : ℤ × ℤ) : Prop :=
  axialDistance p.1 p.2 w.q w.r ≤ ((⌈(t - w.startTime) * w.speed + w.width⌉ : ℤ) : ℚ) ∧
    (t - w.startTime) * w.speed - w.width ≤ axialDistance p.1 p.2 w.q w.r

/-- Embeds `HexGrid.update`, per-cell step: recompute the wave intensity, form the
interpolation target `targetIntensity + waveIntensity`, and move `intensity`
toward it by `(target - intensity) * lerpSpeed * deltaTime` (with
`lerpSpeed = 5.0`) unless the cell is already settled and dark. -/
def stepHex (t dt : ℚ) (waves : List Wave) (hex : HexCell) : HexCell :=
  let lerpSpeed : ℚ := 5
  let target := hex.targetIntensity + waveIntensityAt t hex.q hex.r waves
  if 1 / 1000 < |hex.intensity - target| ∨ 1 / 1000 < hex.intensity then
    { hex with intensity := hex.intensity + (target - hex.intensity) * lerpSpeed * dt }
  else hex

/-- The condition under which `HexGrid.update` keeps a cell in the active
set: either the lerp branch ran, or the cell is not yet both settled
(`|intensity| < 0.001`) and untargeted (`|targetIntensity| < 0.001`). -/
abbrev hexStaysActive (t : ℚ) (waves : List Wave) (hex : HexCell) : Prop :=
  1 / 1000 < |hex.intensity - (hex.targetIntensity + waveIntensityAt t hex.q hex.r waves)| ∨
    1 / 1000 < hex.intensity ∨
      ¬(|hex.intensity| < 1 / 1000 ∧ |hex.targetIntensity| < 1 / 1000)

/-- Active-set retention applied to a looked-up cell: keys whose cell is
missing are dropped from the active set by `HexGrid.update`. -/
abbrev keepActive (t : ℚ) (waves : List Wave) (o : Option HexCell) : Prop :=
  match o with
  | none => False
  | some hex => hexStaysActive t waves hex

instance (t : ℚ) (waves : List Wave) (o : Option HexCell) : Decidable (keepActive t waves o) :=
  match o with
  | none => isFalse fun h => h
  | some hex => inferInstanceAs (Decidable (hexStaysActive t waves hex))

/-- Embeds `HexGrid.update(deltaTime)` at clock `t = performance.now()/1000`:
remove waves whose travelled distance reached 6, activate the cells near the
surviving wave fronts, and step every active cell. -/
def updateGrid (g : Grid) (dt t : ℚ) : Grid :=
  let waves1 := g.waves.filter fun w => ¬6 ≤ (t - w.startTime) * w.speed
  let active1 := g.activeHexes ∪ g.keys.filter fun p => ∃ w ∈ waves1, waveActivates t w p
  { g with
    waves := waves1
    hexes := fun p => if p ∈ active1 then (g.hexes p).map (stepHex t dt waves1) else g.hexes p
    activeHexes := active1.filter fun p => keepActive t waves1 (g.hexes p) }

/-- Invariant predicate (stated, not from the source): every present cell's
`targetIntensity` lies in `[0, 1]`. -/
def TargetInRange (g : Grid) : Prop :=
  ∀ (p : ℤ × ℤ) (hex : HexCell), g.hexes p = some hex →
    0 ≤ hex.targetIntensity ∧ hex.targetIntensity ≤ 1

/-- Invariant predicate (stated, not from the source): every present cell's
`intensity` lies in `[0, 2]`. -/
def IntensityBounded (g : Grid) : Prop :=
  ∀ (p : ℤ × ℤ) (hex : HexCell), g.hexes p = some hex →
    0 ≤ hex.intensity ∧ hex.intensity ≤ 2

/-- Embeds `HexUtils.HEX_SIZE`. -/
def HEX_SIZE : ℝ := 1

/-- Embeds `HexUtils.axialToWorld(q, r)` (flat-top layout):
`x = HEX_SIZE * √3 * (q + r/2)`, `z = HEX_SIZE * 3/2 * r`. -/
noncomputable def axialToWorld (q r : ℝ) : ℝ × ℝ :=
  (HEX_SIZE * Real.sqrt 3 * (q + r / 2), HEX_SIZE * 3 / 2 * r)

/-- The cube-rounding core of `HexUtils.axialRound`: round each cube
coordinate independently, then recompute the one with the largest rounding
error from the other two. Returns the corrected cube triple
`(rx, ry, rz)`. -/
noncomputable def axialRoundCube (q r : ℝ) : ℤ × ℤ × ℤ :=
  let x := q
  let z := r
  let y := -x - z
  let rx := round x
  let rz := round z
  let ry := round y
  let xDiff := |(rx : ℝ) - x|
  let yDiff := |(ry : ℝ) - y|
  let zDiff := |(rz : ℝ) - z|
  if xDiff > yDiff ∧ xDiff > zDiff then (-ry - rz, ry, rz)
  else if yDiff > zDiff then (rx, -rx - rz, rz)
  else (rx, ry, -rx - ry)

/-- Embeds `HexUtils.axialRound(q, r)`: the axial part `(rx, rz)` of the corrected
cube triple. -/
noncomputable def axialRound (q r : ℝ) : ℤ × ℤ :=
  ((axialRoundCube q r).1, (axialRoundCube q r).2.2)

/-- Embeds `HexUtils.worldToAxial(x, z)`: the inverse linear transform
`q = (x*√3/3 - z/3)/HEX_SIZE`, `r = (z*2/3)/HEX_SIZE`, followed by cube
rounding. -/
noncomputable def worldToAxial (x z : ℝ) : ℤ × ℤ :=
  axialRound ((x * Real.sqrt 3 / 3 - z / 3) / HEX_SIZE) ((z * 2 / 3) / HEX_SIZE)

/-! ### Helper lemmas -/

/-- On integer inputs, `axialDistance` is the cast of an integer numerator
divided by 2. -/
theorem axialDistance_intCast (q1 r1 q2 r2 : ℤ) :
    axialDistance q1 r1 q2 r2 =
      ((|q1 - q2| + |r1 - r2| + |q1 + r1 - q2 - r2| : ℤ) : ℚ) / 2 := by
  unfold axialDistance
  push_cast
  ring

/-- The integer numerator of `axialDistance` is even. -/
theorem axialDistance_numerator_even (q1 r1 q2 r2 : ℤ) :
    (2 : ℤ) ∣ |q1 - q2| + |r1 - r2| + |q1 + r1 - q2 - r2| := by
  simp only [Int.abs_eq_natAbs]
  omega

/-! ### C7: properties of `axialDistance` -/

/-- C7: for all integer pairs, `axialDistance` equals
`(|dq| + |dr| + |dq+dr|) / 2` and is an exact integer; it is symmetric, zero
iff the coordinates coincide, satisfies the triangle inequality, and
`axialDistance 0 0 2 (-1) = 2`. -/
theorem axialDistance_props (q1 r1 q2 r2 q3 r3 : ℤ) :
    (∃ n : ℤ, axialDistance q1 r1 q2 r2 = n) ∧
    axialDistance q1 r1 q2 r2 = axialDistance q2 r2 q1 r1 ∧
    (axialDistance q1 r1 q2 r2 = 0 ↔ q1 = q2 ∧ r1 = r2) ∧
    axialDistance q1 r1 q3 r3 ≤ axialDistance q1 r1 q2 r2 + axialDistance q2 r2 q3 r3 ∧
    axialDistance 0 0 2 (-1) = 2 := by
  refine ⟨?_, ?_, ?_, ?_, ?_⟩
  · obtain ⟨k, hk⟩ := axialDistance_numerator_even q1 r1 q2 r2
    refine ⟨k, ?_⟩
    rw [axialDistance_intCast, hk]
    push_cast
    ring
  · unfold axialDistance
    rw [abs_sub_comm (q1 : ℚ) (q2 : ℚ), abs_sub_comm (r1 : ℚ) (r2 : ℚ),
      show (q1 : ℚ) + r1 - q2 - r2 = -((q2 : ℚ) + r2 - q1 - r1) by ring, abs_neg]
  · rw [axialDistance_intCast, div_eq_zero_iff,
      or_iff_left (by norm_num : (2 : ℚ) ≠ 0), Int.cast_eq_zero]
    simp only [Int.abs_eq_natAbs]
    omega
  · rw [axialDistance_intCast, axialDistance_intCast, axialDistance_intCast,
      div_add_div_same, div_le_div_iff_of_pos_right (by norm_num : (0 : ℚ) < 2)]
    rw [show ((|q1 - q2| + |r1 - r2| + |q1 + r1 - q2 - r2| : ℤ) : ℚ) +
        ((|q2 - q3| + |r2 - r3| + |q2 + r2 - q3 - r3| : ℤ) : ℚ) =
        ((|q1 - q2| + |r1 - r2| + |q1 + r1 - q2 - r2| +
          (|q2 - q3| + |r2 - r3| + |q2 + r2 - q3 - r3|) : ℤ) : ℚ) by push_cast; ring]
    rw [Int.cast_le]
    simp only [Int.abs_eq_natAbs]
    omega
  · norm_num [axialDistance]

/-! ### C3: grid construction -/

/-- Membership in one generated row. -/
theorem mem_gridRow {radius q : ℤ} {p : ℤ × ℤ} :
    p ∈ gridRow radius q ↔
      p.1 = q ∧ max (-radius) (-q - radius) ≤ p.2 ∧ p.2 ≤ min radius (-q + radius) := by
  rcases p with ⟨a, b⟩
  simp only [gridRow, Finset.mem_image, Finset.mem_Icc, Prod.mk.injEq]
  constructor
  · rintro ⟨s, ⟨h1, h2⟩, rfl, rfl⟩
    exact ⟨rfl, h1, h2⟩
  · rintro ⟨rfl, h1, h2⟩
    exact ⟨b, ⟨h1, h2⟩, rfl, rfl⟩

/-- Cardinality of one generated row: `2·radius + 1 - |q|`. -/
theorem gridRow_card (radius q : ℤ) (hR : 0 ≤ radius)
    (hq : q ∈ Finset.Icc (-radius) radius) :
    ((gridRow radius q).card : ℤ) = 2 * radius + 1 - |q| := by
  rw [Finset.mem_Icc] at hq
  unfold gridRow
  rw [Finset.card_image_of_injective _ (fun r1 r2 h => (Prod.ext_iff.mp h).2)]
  rcases le_total q 0 with h | h
  · rw [max_eq_right (by omega : -radius ≤ -q - radius),
      min_eq_left (by omega : radius ≤ -q + radius),
      Int.card_Icc_of_le (-q - radius) radius (by omega), abs_of_nonpos h]
    ring
  · rw [max_eq_left (by omega : -q - radius ≤ -radius),
      min_eq_right (by omega : -q + radius ≤ radius),
      Int.card_Icc_of_le (-radius) (-q + radius) (by omega), abs_of_nonneg h]
    ring

/-- Gauss-style sum of absolute values over a symmetric integer interval. -/
theorem sum_abs_Icc (n : ℕ) :
    (∑ q ∈ Finset.Icc (-(n : ℤ)) (n : ℤ), |q|) = (n : ℤ) * ((n : ℤ) + 1) := by
  induction n with
  | zero => simp
  | succ m ih =>
    have hset : Finset.Icc (-((m : ℤ) + 1)) ((m : ℤ) + 1) =
        insert (-((m : ℤ) + 1)) (insert ((m : ℤ) + 1) (Finset.Icc (-(m : ℤ)) (m : ℤ))) := by
      ext x
      simp only [Finset.mem_Icc, Finset.mem_insert]
      omega
    push_cast
    rw [hset, Finset.sum_insert (by simp only [Finset.mem_insert, Finset.mem_Icc]; omega),
      Finset.sum_insert (by simp only [Finset.mem_Icc]; omega), ih,
      abs_neg, abs_of_nonneg (by positivity : (0 : ℤ) ≤ (m : ℤ) + 1)]
    ring

/-- Cardinality of the generated key set: `3·radius² + 3·radius + 1`. -/
theorem gridKeys_card (radius : ℤ) (hR : 0 ≤ radius) :
    ((gridKeys radius).card : ℤ) = 3 * radius ^ 2 + 3 * radius + 1 := by
  obtain ⟨n, rfl⟩ := Int.eq_ofNat_of_zero_le hR
  unfold gridKeys
  rw [Finset.card_biUnion (fun q1 _ q2 _ hne => Finset.disjoint_left.mpr
    (fun p hp1 hp2 => hne ((mem_gridRow.mp hp1).1.symm.trans (mem_gridRow.mp hp2).1)))]
  rw [Nat.cast_sum, Finset.sum_congr rfl (fun q hq => gridRow_card _ q hR hq),
    Finset.sum_sub_distrib, Finset.sum_const, Int.card_Icc, nsmul_eq_mul, sum_abs_Icc n]
  have htn : ((((n : ℤ) + 1 - -(n : ℤ)).toNat : ℕ) : ℤ) = 2 * (n : ℤ) + 1 := by omega
  rw [htn]
  ring

/-- C3: grid construction with radius `R ≥ 0` creates exactly `3R² + 3R + 1`
cells, and a cell exists for `(q, r)` iff `axialDistance 0 0 q r ≤ R`. -/
theorem gridKeys_spec (radius : ℤ) (hR : 0 ≤ radius) :
    ((gridKeys radius).card : ℤ) = 3 * radius ^ 2 + 3 * radius + 1 ∧
    ∀ q r : ℤ, (q, r) ∈ gridKeys radius ↔
      axialDistance 0 0 (q : ℚ) (r : ℚ) ≤ (radius : ℚ) := by
  refine ⟨gridKeys_card radius hR, fun q r => ?_⟩
  have hmem : (q, r) ∈ gridKeys radius ↔ -radius ≤ q ∧ q ≤ radius ∧
      max (-radius) (-q - radius) ≤ r ∧ r ≤ min radius (-q + radius) := by
    unfold gridKeys
    rw [Finset.mem_biUnion]
    constructor
    · rintro ⟨q', hq', hp⟩
      obtain ⟨h1, h2, h3⟩ := mem_gridRow.mp hp
      obtain rfl : q = q' := h1
      rw [Finset.mem_Icc] at hq'
      exact ⟨hq'.1, hq'.2, h2, h3⟩
    · rintro ⟨h1, h2, h3, h4⟩
      exact ⟨q, Finset.mem_Icc.mpr ⟨h1, h2⟩, mem_gridRow.mpr ⟨rfl, h3, h4⟩⟩
  have e1 : |0 - (q : ℚ)| + |0 - (r : ℚ)| + |0 + 0 - (q : ℚ) - (r : ℚ)|
      = ((|q| + |r| + |q + r| : ℤ) : ℚ) := by
    push_cast
    rw [show (0 : ℚ) - (q : ℚ) = -((q : ℚ)) by ring,
      show (0 : ℚ) - (r : ℚ) = -((r : ℚ)) by ring,
      show (0 : ℚ) + 0 - (q : ℚ) - (r : ℚ) = -((q : ℚ) + (r : ℚ)) by ring,
      abs_neg, abs_neg, abs_neg]
  rw [hmem, axialDistance, div_le_iff₀ (by norm_num : (0 : ℚ) < 2), e1,
    show (radius : ℚ) * 2 = ((2 * radius : ℤ) : ℚ) by push_cast; ring, Int.cast_le,
    max_le_iff, le_min_iff]
  simp only [Int.abs_eq_natAbs]
  omega

/-- Witness for C3: at radius 2 the grid holds exactly 19 cells, and the cell
`(2, -1)` (at hex distance 2 from the origin) is present. -/
theorem gridKeys_spec_witness :
    ((gridKeys 2).card : ℤ) = 3 * 2 ^ 2 + 3 * 2 + 1 ∧ (2, -1) ∈ gridKeys 2 := by
  refine ⟨(gridKeys_spec 2 (by norm_num)).1, ?_⟩
  refine ((gridKeys_spec 2 (by norm_num)).2 2 (-1)).mpr ?_
  norm_num [axialDistance]

/-! ### C4: wave contribution formula -/

/-- C4 counterexample: the cell at `(7, 0)` is within the front width of a
wave from the origin at clock `t = 0.23` (`diff = 1.25 < width = 1.5`), yet
its contribution is `0`, not `((1 - diff/width)^3) * 2`, because the code
skips every cell farther than 6 from the wave origin. -/
theorem waveContribution_skips_far_cells :
    |axialDistance 7 0 ((newWave 0 0 0).q : ℚ) ((newWave 0 0 0).r : ℚ) -
        ((23 / 100 : ℚ) - (newWave 0 0 0).startTime) * (newWave 0 0 0).speed| <
      (newWave 0 0 0).width ∧
    waveContribution (23 / 100) 7 0 (newWave 0 0 0) = 0 ∧
    waveContribution (23 / 100) 7 0 (newWave 0 0 0) ≠
      (1 - |axialDistance 7 0 ((newWave 0 0 0).q : ℚ) ((newWave 0 0 0).r : ℚ) -
          ((23 / 100 : ℚ) - (newWave 0 0 0).startTime) * (newWave 0 0 0).speed| /
          (newWave 0 0 0).width) ^ 3 * 2 := by
  norm_num [newWave, waveContribution, axialDistance, abs_of_nonneg]

/-- C4 (amended): writing `dist` for the cell's distance to the wave origin
and `diff = |dist - waveDistanceTraveled|`, a wave's contribution is
`((1 - diff/width)^3) * 2` when `diff < width` — provided `dist ≤ 6`, since
cells farther than 6 from the origin are skipped and always contribute `0` —
and `0` otherwise; in particular it is `2` pre-clamp when `diff = 0` (and
`dist ≤ 6`), `0` when `diff ≥ width`, and the summed contribution over any
wave list is clamped to at most `1`. -/
theorem waveContribution_spec (t : ℚ) (hq hr : ℤ) (w : Wave) (waves : List Wave) :
    (axialDistance hq hr w.q w.r ≤ 6 →
      waveContribution t hq hr w =
        if |axialDistance hq hr w.q w.r - (t - w.startTime) * w.speed| < w.width then
          (1 - |axialDistance hq hr w.q w.r - (t - w.startTime) * w.speed| / w.width) ^ 3 * 2
        else 0) ∧
    (6 < axialDistance hq hr w.q w.r → waveContribution t hq hr w = 0) ∧
    (axialDistance hq hr w.q w.r ≤ 6 → 0 < w.width →
      axialDistance hq hr w.q w.r = (t - w.startTime) * w.speed →
      waveContribution t hq hr w = 2) ∧
    (w.width ≤ |axialDistance hq hr w.q w.r - (t - w.startTime) * w.speed| →
      waveContribution t hq hr w = 0) ∧
    waveIntensityAt t hq hr waves ≤ 1 := by
  refine ⟨?_, ?_, ?_, ?_, ?_⟩
  · intro hle
    rw [waveContribution, if_neg (not_lt.mpr hle)]
  · intro hgt
    rw [waveContribution, if_pos hgt]
  · intro hle hw hdiff
    rw [waveContribution, if_neg (not_lt.mpr hle), hdiff]
    simp only [sub_self, abs_zero]
    rw [if_pos hw]
    norm_num
  · intro hge
    rcases le_or_lt (axialDistance (hq : ℚ) (hr : ℚ) (w.q : ℚ) (w.r : ℚ)) 6 with h6 | h6
    · rw [waveContribution, if_neg (not_lt.mpr h6), if_neg (not_lt.mpr hge)]
    · rw [waveContribution, if_pos h6]
  · exact min_le_right _ _

/-- Witness for C4: a cell exactly at the front of a fresh wave receives the
maximal pre-clamp contribution `2`. -/
theorem waveContribution_spec_witness :
    waveContribution 0 0 0 (newWave 0 0 0) = 2 :=
  (waveContribution_spec 0 0 0 (newWave 0 0 0) []).2.2.1
    (by norm_num [newWave, axialDistance])
    (by norm_num [newWave])
    (by norm_num [newWave, axialDistance])

/-! ### C5: wave expiry -/

/-- C5: after `update` at clock `t`, no wave whose travelled distance
`(t - startTime) * speed` is at least 6 remains; in particular a wave
triggered at the origin into an empty list is gone once the travelled
distance reaches 6, leaving the wave list empty. -/
theorem updateGrid_expires (g : Grid) (dt t : ℚ) :
    (∀ w ∈ (updateGrid g dt t).waves, (t - w.startTime) * w.speed < 6) ∧
    (∀ g0 : Grid, ∀ t0 : ℚ, g0.waves = [] → 6 ≤ (t - t0) * 25 →
      (updateGrid (triggerWave g0 0 0 t0) dt t).waves = []) := by
  constructor
  · intro w hw
    simp only [updateGrid, List.mem_filter, decide_eq_true_eq] at hw
    exact lt_of_not_ge hw.2
  · intro g0 t0 hnil hfar
    simp only [updateGrid, triggerWave, hnil, List.nil_append, List.length_singleton]
    norm_num [List.filter, newWave, hfar]

/-- Witness for C5: a surviving wave satisfies the travelled-distance bound,
and the concrete expiry scenario empties the list. -/
theorem updateGrid_expires_witness :
    ((1 / 10 : ℚ) - (newWave 0 0 0).startTime) * (newWave 0 0 0).speed < 6 ∧
    (updateGrid (triggerWave (mkGrid 1) 0 0 0) (1 / 60) 1).waves = [] := by
  constructor
  · refine (updateGrid_expires (triggerWave (mkGrid 1) 0 0 0) (1 / 60) (1 / 10)).1
      (newWave 0 0 0) ?_
    simp only [updateGrid, triggerWave, mkGrid, List.mem_filter, List.nil_append,
      List.length_singleton]
    norm_num [newWave, List.filter]
  · exact (updateGrid_expires (mkGrid 1) (1 / 60) 1).2 (mkGrid 1) 0 rfl (by norm_num)

/-! ### C6: wave cap -/

/-- C6: if at most 5 waves are held before a `triggerWave`, at most 5 are
held after it; and a trigger issued while exactly 5 are held evicts exactly
the oldest (earliest-appended) wave, leaving 5 waves with the new one
present at the end. -/
theorem triggerWave_cap (g : Grid) (q r : ℤ) (now : ℚ) (h5 : g.waves.length ≤ 5) :
    (triggerWave g q r now).waves.length ≤ 5 ∧
    (g.waves.length = 5 →
      (triggerWave g q r now).waves = g.waves.tail ++ [newWave q r now] ∧
      (triggerWave g q r now).waves.length = 5 ∧
      newWave q r now ∈ (triggerWave g q r now).waves) := by
  simp only [triggerWave]
  have hlen1 : (g.waves ++ [newWave q r now]).length = g.waves.length + 1 := by
    simp
  constructor
  · split
    · rename_i h
      rw [List.length_tail, hlen1]
      omega
    · rename_i h
      rw [hlen1] at h ⊢
      omega
  · intro hlen
    obtain ⟨a, ws, hws⟩ : ∃ a ws, g.waves = a :: ws := by
      cases hg : g.waves with
      | nil => rw [hg] at hlen; simp at hlen
      | cons a ws => exact ⟨a, ws, rfl⟩
    rw [hws] at hlen ⊢
    simp only [List.length_cons] at hlen
    have h6 : ((a :: ws) ++ [newWave q r now]).length > 5 := by
      simp only [List.length_append, List.length_cons, List.length_singleton]
      omega
    rw [if_pos h6]
    simp only [List.cons_append, List.tail_cons, List.length_append,
      List.length_singleton, List.mem_append, List.mem_singleton]
    refine ⟨trivial, by omega, Or.inr trivial⟩

/-- Witness for C6: triggering a sixth wave while five (triggered at clocks
0 … 4/10) are held keeps the count at 5, drops the oldest, and appends the
new wave. -/
theorem triggerWave_cap_witness :
    (triggerWave
        { mkGrid 1 with
          waves := [newWave 0 0 0, newWave 0 0 (1 / 10), newWave 0 0 (2 / 10),
            newWave 0 0 (3 / 10), newWave 0 0 (4 / 10)] }
        0 0 (5 / 10)).waves.length = 5 :=
  ((triggerWave_cap
      { mkGrid 1 with
        waves := [newWave 0 0 0, newWave 0 0 (1 / 10), newWave 0 0 (2 / 10),
          newWave 0 0 (3 / 10), newWave 0 0 (4 / 10)] }
      0 0 (5 / 10) (by norm_num)).2 rfl).2.1

/-! ### Helper lemmas on `updateHexIntensity` -/

/-- Cells other than the addressed one are untouched. -/
theorem updateHexIntensity_hexes_ne (g : Grid) (q r : ℤ) (v : ℚ) (p : ℤ × ℤ)
    (hp : p ≠ (q, r)) : (updateHexIntensity g q r v).hexes p = g.hexes p := by
  unfold updateHexIntensity
  cases hg : g.hexes (q, r) <;> simp [hg, hp]

/-- The addressed cell gets its `targetIntensity` clamped and stored. -/
theorem updateHexIntensity_hexes_self (g : Grid) (q r : ℤ) (v : ℚ) :
    (updateHexIntensity g q r v).hexes (q, r) =
      (g.hexes (q, r)).map fun h => { h with targetIntensity := max 0 (min 1 v) } := by
  unfold updateHexIntensity
  cases hg : g.hexes (q, r) <;> simp [hg]

/-- The hover pointer is not changed by an intensity update. -/
theorem updateHexIntensity_hoveredHex (g : Grid) (q r : ℤ) (v : ℚ) :
    (updateHexIntensity g q r v).hoveredHex = g.hoveredHex := by
  unfold updateHexIntensity
  cases hg : g.hexes (q, r) <;> simp [hg]

/-- Overwriting the hover pointer leaves the cell map unchanged. -/
theorem hoverSet_hexes (g : Grid) (o : Option (ℤ × ℤ)) :
    ({ g with hoveredHex := o } : Grid).hexes = g.hexes := rfl

/-! ### C8: hover handling -/

/-- C8 counterexample: starting from a hovered origin cell whose
`targetIntensity` was afterwards lowered to `1/2`, calling `setHover` on the
very same (present) coordinate does not set its `targetIntensity` to `1`:
the code returns early when the hovered coordinate is unchanged. -/
theorem setHover_self_hover_ce :
    ((updateHexIntensity (setHover (mkGrid 1) 0 0) 0 0 (1 / 2)).hexes (0, 0)).isSome = true ∧
    ((setHover (updateHexIntensity (setHover (mkGrid 1) 0 0) 0 0 (1 / 2)) 0 0).hexes
        (0, 0)).map (fun h => h.targetIntensity) ≠ some 1 := by
  have hmk : (mkGrid 1).hexes (0, 0) = some (initialHex (0, 0)) := by
    rw [show (mkGrid 1).hexes (0, 0) =
      (if ((0, 0) : ℤ × ℤ) ∈ gridKeys 1 then some (initialHex (0, 0)) else none) from rfl]
    rw [if_pos (by decide)]
  have hg1 : setHover (mkGrid 1) 0 0 =
      updateHexIntensity { mkGrid 1 with hoveredHex := some (0, 0) } 0 0 1 := by
    rw [setHover, if_neg (by rw [show (mkGrid 1).hoveredHex = none from rfl]; simp)]
    simp only [show (mkGrid 1).hoveredHex = none from rfl]
    rw [if_pos (by rw [hmk]; rfl)]
  have hg1cell : (setHover (mkGrid 1) 0 0).hexes (0, 0) =
      some { initialHex (0, 0) with targetIntensity := 1 } := by
    rw [hg1, updateHexIntensity_hexes_self, hoverSet_hexes, hmk]
    norm_num [min_def, max_def]
  have hg1hov : (setHover (mkGrid 1) 0 0).hoveredHex = some (0, 0) := by
    rw [hg1, updateHexIntensity_hoveredHex]
  have hg2cell : (updateHexIntensity (setHover (mkGrid 1) 0 0) 0 0 (1 / 2)).hexes (0, 0) =
      some { initialHex (0, 0) with targetIntensity := 1 / 2 } := by
    rw [updateHexIntensity_hexes_self, hg1cell]
    norm_num [min_def, max_def]
  have hg2hov : (updateHexIntensity (setHover (mkGrid 1) 0 0) 0 0 (1 / 2)).hoveredHex =
      some (0, 0) := by
    rw [updateHexIntensity_hoveredHex, hg1hov]
  have hg3 : setHover (updateHexIntensity (setHover (mkGrid 1) 0 0) 0 0 (1 / 2)) 0 0 =
      updateHexIntensity (setHover (mkGrid 1) 0 0) 0 0 (1 / 2) := by
    rw [setHover, if_pos hg2hov]
  refine ⟨by rw [hg2cell]; rfl, ?_⟩
  rw [hg3, hg2cell]
  norm_num [initialHex]

/-- C8 (amended): when `(q, r)` is not already the hovered coordinate,
`setHover` clears the previously hovered cell's `targetIntensity` to 0 and —
if `(q, r)` is present — sets the new cell's `targetIntensity` to 1 and
records it as hovered, or — if `(q, r)` is absent — leaves no cell hovered;
no other cell state changes. When `(q, r)` is already the hovered
coordinate, `setHover` returns the state unchanged. -/
theorem setHover_spec (g : Grid) (q r : ℤ) :
    (g.hoveredHex = some (q, r) → setHover g q r = g) ∧
    (g.hoveredHex ≠ some (q, r) →
      ((g.hexes (q, r)).isSome →
        (setHover g q r).hoveredHex = some (q, r) ∧
        (setHover g q r).hexes (q, r) =
          (g.hexes (q, r)).map (fun h => { h with targetIntensity := 1 }) ∧
        (∀ p : ℤ × ℤ, p ≠ (q, r) → g.hoveredHex ≠ some p →
          (setHover g q r).hexes p = g.hexes p) ∧
        (∀ p : ℤ × ℤ, g.hoveredHex = some p → p ≠ (q, r) →
          (setHover g q r).hexes p =
            (g.hexes p).map (fun h => { h with targetIntensity := 0 }))) ∧
      ((g.hexes (q, r)).isNone →
        (setHover g q r).hoveredHex = none ∧
        (∀ p : ℤ × ℤ, g.hoveredHex = some p →
          (setHover g q r).hexes p =
            (g.hexes p).map (fun h => { h with targetIntensity := 0 })) ∧
        (∀ p : ℤ × ℤ, g.hoveredHex ≠ some p →
          (setHover g q r).hexes p = g.hexes p))) := by
  constructor
  · intro h
    rw [setHover, if_pos h]
  · intro hne
    cases hh : g.hoveredHex with
    | none =>
      constructor
      · intro hsome
        rw [setHover, if_neg hne]
        simp only [hh]
        rw [if_pos hsome]
        refine ⟨updateHexIntensity_hoveredHex _ q r 1, ?_, ?_, ?_⟩
        · rw [updateHexIntensity_hexes_self]
          norm_num
        · intro p hp _
          exact updateHexIntensity_hexes_ne _ q r 1 p hp
        · intro p hp
          exact absurd hp (by simp)
      · intro hnone
        rw [setHover, if_neg hne]
        simp only [hh]
        rw [if_neg (by simp [Option.isNone_iff_eq_none.mp hnone])]
        refine ⟨rfl, ?_, fun p _ => rfl⟩
        intro p hp
        exact absurd hp (by simp)
    | some p0 =>
      obtain ⟨p1, p2⟩ := p0
      have hp0ne : ((p1, p2) : ℤ × ℤ) ≠ (q, r) := fun hcon => hne (hh.trans (by rw [hcon]))
      have hg1 : (updateHexIntensity g p1 p2 0).hexes (q, r) = g.hexes (q, r) :=
        updateHexIntensity_hexes_ne g p1 p2 0 (q, r) (Ne.symm hp0ne)
      constructor
      · intro hsome
        rw [setHover, if_neg hne]
        simp only [hh]
        rw [if_pos (by rw [hg1]; exact hsome)]
        refine ⟨updateHexIntensity_hoveredHex _ q r 1, ?_, ?_, ?_⟩
        · rw [updateHexIntensity_hexes_self]
          show ((updateHexIntensity g p1 p2 0).hexes (q, r)).map _ = _
          rw [hg1]
          norm_num
        · intro p hp hpprev
          rw [updateHexIntensity_hexes_ne _ q r 1 p hp]
          show (updateHexIntensity g p1 p2 0).hexes p = g.hexes p
          refine updateHexIntensity_hexes_ne g p1 p2 0 p (fun hcon => ?_)
          exact hpprev (by rw [hcon])
        · intro p hp hpne
          obtain rfl : p = (p1, p2) := (Option.some_inj.mp hp).symm
          rw [updateHexIntensity_hexes_ne _ q r 1 _ hpne]
          show (updateHexIntensity g p1 p2 0).hexes (p1, p2) = _
          rw [updateHexIntensity_hexes_self]
          norm_num
      · intro hnone
        rw [setHover, if_neg hne]
        simp only [hh]
        rw [if_neg (by rw [hg1, Option.isNone_iff_eq_none.mp hnone]; simp)]
        refine ⟨rfl, ?_, ?_⟩
        · intro p hp
          obtain rfl : p = (p1, p2) := (Option.some_inj.mp hp).symm
          show (updateHexIntensity g p1 p2 0).hexes (p1, p2) = _
          rw [updateHexIntensity_hexes_self]
          norm_num
        · intro p hp
          show (updateHexIntensity g p1 p2 0).hexes p = g.hexes p
          refine updateHexIntensity_hexes_ne g p1 p2 0 p (fun hcon => ?_)
          exact hp (by rw [hcon])

/-- Witness for C8: hovering the present origin cell of a fresh grid records
it as hovered. -/
theorem setHover_spec_witness :
    (setHover (mkGrid 1) 0 0).hoveredHex = some (0, 0) :=
  ((((setHover_spec (mkGrid 1) 0 0).2 (by simp [mkGrid])).1) (by decide)).1

/-! ### C9: tile placement -/

/-- C9: for a present cell, `placeTile` replaces any existing tile mesh with
a fresh one exactly when `type ≠ Empty` (otherwise the cell ends with no
mesh), always sets `tileType := type`, changes no other cell, and placing
`Empty` after a non-Empty placement leaves no mesh and `tileType = Empty`. -/
theorem placeTile_spec (g : Grid) (q r : ℤ) (type : TileType)
    (h : (g.hexes (q, r)).isSome) :
    (placeTile g q r type).hexes (q, r) = (g.hexes (q, r)).map (fun hex =>
      { hex with
        tileMesh := if type ≠ TileType.Empty then some (createTileMesh q r type) else none,
        tileType := type }) ∧
    (∀ p : ℤ × ℤ, p ≠ (q, r) → (placeTile g q r type).hexes p = g.hexes p) ∧
    ((placeTile (placeTile g q r type) q r TileType.Empty).hexes (q, r)).map
        (fun hex => (hex.tileType, hex.tileMesh)) = some (TileType.Empty, none) := by
  obtain ⟨hex, hhex⟩ := Option.isSome_iff_exists.mp h
  refine ⟨?_, ?_, ?_⟩
  · by_cases ht : type = TileType.Empty <;> simp [placeTile, hhex, ht]
  · intro p hp
    simp [placeTile, hhex, hp]
  · by_cases ht : type = TileType.Empty <;> simp [placeTile, hhex, ht]

/-- Witness for C9: placing a Road tile on the present origin cell and then
clearing it with Empty leaves no mesh and an Empty tile type. -/
theorem placeTile_spec_witness :
    ((placeTile (placeTile (mkGrid 1) 0 0 TileType.Road) 0 0 TileType.Empty).hexes
        (0, 0)).map (fun hex => (hex.tileType, hex.tileMesh)) =
      some (TileType.Empty, none) :=
  (placeTile_spec (mkGrid 1) 0 0 TileType.Road (by decide)).2.2

/-! ### C10: intensity invariants -/

/-- Every single-wave contribution is nonnegative. -/
theorem waveContribution_nonneg (t : ℚ) (hq hr : ℤ) (w : Wave) :
    0 ≤ waveContribution t hq hr w := by
  simp only [waveContribution]
  split
  · exact le_refl 0
  · split
    · rename_i hlt
      have hw : 0 < w.width := lt_of_le_of_lt (abs_nonneg _) hlt
      have h1 : 0 ≤ 1 -
          |axialDistance (hq : ℚ) (hr : ℚ) (w.q : ℚ) (w.r : ℚ) -
            (t - w.startTime) * w.speed| / w.width := by
        rw [sub_nonneg]
        exact (div_le_one hw).mpr hlt.le
      exact mul_nonneg (pow_nonneg h1 3) (by norm_num)
    · exact le_refl 0

/-- The clamped wave intensity lies in `[0, 1]`. -/
theorem waveIntensityAt_bounds (t : ℚ) (hq hr : ℤ) (waves : List Wave) :
    0 ≤ waveIntensityAt t hq hr waves ∧ waveIntensityAt t hq hr waves ≤ 1 := by
  unfold waveIntensityAt
  refine ⟨le_min (List.sum_nonneg fun x hx => ?_) (by norm_num), min_le_right _ _⟩
  obtain ⟨w, _, rfl⟩ := List.mem_map.mp hx
  exact waveContribution_nonneg t hq hr w

/-- The per-cell step of `update` never writes `targetIntensity`. -/
theorem stepHex_targetIntensity (t dt : ℚ) (waves : List Wave) (hex : HexCell) :
    (stepHex t dt waves hex).targetIntensity = hex.targetIntensity := by
  rw [stepHex]
  split <;> rfl

/-- One lerp step keeps the intensity in `[0, 2]` when the step factor
`5 * dt` lies in `[0, 1]`. -/
theorem stepHex_intensity_bounds (t dt : ℚ) (waves : List Wave) (hex : HexCell)
    (hdt : 0 ≤ dt) (hstep : 5 * dt ≤ 1)
    (hT : 0 ≤ hex.targetIntensity ∧ hex.targetIntensity ≤ 1)
    (hI : 0 ≤ hex.intensity ∧ hex.intensity ≤ 2) :
    0 ≤ (stepHex t dt waves hex).intensity ∧ (stepHex t dt waves hex).intensity ≤ 2 := by
  obtain ⟨hw0, hw1⟩ := waveIntensityAt_bounds t hex.q hex.r waves
  obtain ⟨ht0, ht1⟩ := hT
  obtain ⟨hi0, hi1⟩ := hI
  rw [stepHex]
  split
  · have h1 : (0 : ℚ) ≤ 1 - 5 * dt := by linarith
    have h5 : (0 : ℚ) ≤ 5 * dt := by linarith
    have hTnn : 0 ≤ hex.targetIntensity + waveIntensityAt t hex.q hex.r waves := by linarith
    have hT2 : hex.targetIntensity + waveIntensityAt t hex.q hex.r waves ≤ 2 := by linarith
    constructor
    · show 0 ≤ hex.intensity +
        (hex.targetIntensity + waveIntensityAt t hex.q hex.r waves - hex.intensity) * 5 * dt
      nlinarith [mul_nonneg hi0 h1, mul_nonneg hTnn h5]
    · show hex.intensity +
        (hex.targetIntensity + waveIntensityAt t hex.q hex.r waves - hex.intensity) * 5 * dt ≤ 2
      nlinarith [mul_le_mul_of_nonneg_right hi1 h1, mul_le_mul_of_nonneg_right hT2 h5]
  · exact ⟨hi0, hi1⟩

/-- `updateHexIntensity` preserves the `[0, 1]` target invariant. -/
theorem targetInRange_updateHexIntensity (g : Grid) (hT : TargetInRange g)
    (q r : ℤ) (v : ℚ) : TargetInRange (updateHexIntensity g q r v) := by
  intro p hex hp
  by_cases hpq : p = (q, r)
  · subst hpq
    rw [updateHexIntensity_hexes_self] at hp
    obtain ⟨hex0, _, rfl⟩ := Option.map_eq_some'.mp hp
    exact ⟨le_max_left _ _, max_le (by norm_num) (min_le_left _ _)⟩
  · rw [updateHexIntensity_hexes_ne g q r v p hpq] at hp
    exact hT p hex hp

/-- `updateHexIntensity` never writes `intensity`. -/
theorem updateHexIntensity_intensity (g : Grid) (q r : ℤ) (v : ℚ) (p : ℤ × ℤ) :
    ((updateHexIntensity g q r v).hexes p).map (fun h => h.intensity) =
      (g.hexes p).map (fun h => h.intensity) := by
  by_cases hpq : p = (q, r)
  · subst hpq
    rw [updateHexIntensity_hexes_self]
    cases g.hexes (q, r) <;> simp
  · rw [updateHexIntensity_hexes_ne g q r v p hpq]

/-- `setHover` never writes `intensity`. -/
theorem setHover_intensity (g : Grid) (q r : ℤ) (p : ℤ × ℤ) :
    ((setHover g q r).hexes p).map (fun h => h.intensity) =
      (g.hexes p).map (fun h => h.intensity) := by
  by_cases hs : g.hoveredHex = some (q, r)
  · rw [setHover, if_pos hs]
  · rw [setHover, if_neg hs]
    cases hh : g.hoveredHex with
    | none =>
      simp only [hh]
      split
      · exact updateHexIntensity_intensity _ q r 1 p
      · rfl
    | some p0 =>
      simp only [hh]
      split
      · rw [updateHexIntensity_intensity]
        exact updateHexIntensity_intensity g p0.1 p0.2 0 p
      · exact updateHexIntensity_intensity g p0.1 p0.2 0 p

/-- `placeTile` never writes `intensity` or `targetIntensity`. -/
theorem placeTile_intensities (g : Grid) (q r : ℤ) (ty : TileType) (p : ℤ × ℤ) :
    ((placeTile g q r ty).hexes p).map (fun h => (h.intensity, h.targetIntensity)) =
      (g.hexes p).map (fun h => (h.intensity, h.targetIntensity)) := by
  cases hg : g.hexes (q, r) with
  | none => simp [placeTile, hg]
  | some hex =>
    by_cases hpq : p = (q, r)
    · subst hpq
      by_cases ht : ty = TileType.Empty <;> simp [placeTile, hg, ht]
    · simp [placeTile, hg, hpq]

/-- Transfer of the intensity bound along a pointwise `intensity`-map
equality. -/
theorem intensityBounded_of_map_eq {g g' : Grid}
    (h : ∀ p : ℤ × ℤ, (g'.hexes p).map (fun h => h.intensity) =
      (g.hexes p).map (fun h => h.intensity))
    (hI : IntensityBounded g) : IntensityBounded g' := by
  intro p hex hp
  have hm := h p
  rw [hp] at hm
  obtain ⟨hex0, hh0, hval⟩ := Option.map_eq_some'.mp hm.symm
  have hval2 : hex0.intensity = hex.intensity := hval
  rw [← hval2]
  exact hI p hex0 hh0

/-- `TargetInRange` depends only on the cell map. -/
theorem targetInRange_congr {g g' : Grid} (h : g'.hexes = g.hexes)
    (hT : TargetInRange g) : TargetInRange g' := by
  intro p hex hp
  rw [h] at hp
  exact hT p hex hp

/-- C10: the freshly built grid satisfies both invariants; every public
operation preserves the `[0, 1]` bound on `targetIntensity` (the per-frame
`update` never writes it at all); the clamped wave intensity lies in
`[0, 1]`, so the interpolation target `targetIntensity + waveIntensity` of
any present cell never exceeds 2; and — given a lerp step `5 * dt ≤ 1` —
every operation, `update` included, keeps every cell's overdrive intensity
in `[0, 2]`, however many waves are triggered. -/
theorem intensity_invariants :
    (∀ radius : ℤ, TargetInRange (mkGrid radius) ∧ IntensityBounded (mkGrid radius)) ∧
    (∀ g : Grid, TargetInRange g →
      (∀ q r : ℤ, ∀ v : ℚ, TargetInRange (updateHexIntensity g q r v)) ∧
      (∀ q r : ℤ, TargetInRange (setHover g q r)) ∧
      (∀ q r : ℤ, ∀ ty : TileType, TargetInRange (placeTile g q r ty)) ∧
      (∀ q r : ℤ, ∀ now : ℚ, TargetInRange (triggerWave g q r now)) ∧
      (∀ dt t : ℚ, TargetInRange (updateGrid g dt t))) ∧
    (∀ g : Grid, ∀ dt t : ℚ, ∀ p : ℤ × ℤ,
      ((updateGrid g dt t).hexes p).map (fun h => h.targetIntensity) =
        (g.hexes p).map (fun h => h.targetIntensity)) ∧
    (∀ t : ℚ, ∀ hq hr : ℤ, ∀ waves : List Wave,
      0 ≤ waveIntensityAt t hq hr waves ∧ waveIntensityAt t hq hr waves ≤ 1) ∧
    (∀ g : Grid, TargetInRange g → ∀ (p : ℤ × ℤ) (hex : HexCell),
      g.hexes p = some hex → ∀ (t : ℚ) (waves : List Wave),
      hex.targetIntensity + waveIntensityAt t hex.q hex.r waves ≤ 2) ∧
    (∀ g : Grid, IntensityBounded g →
      (∀ q r : ℤ, ∀ v : ℚ, IntensityBounded (updateHexIntensity g q r v)) ∧
      (∀ q r : ℤ, IntensityBounded (setHover g q r)) ∧
      (∀ q r : ℤ, ∀ ty : TileType, IntensityBounded (placeTile g q r ty)) ∧
      (∀ q r : ℤ, ∀ now : ℚ, IntensityBounded (triggerWave g q r now))) ∧
    (∀ g : Grid, TargetInRange g → IntensityBounded g → ∀ dt t : ℚ,
      0 ≤ dt → 5 * dt ≤ 1 → IntensityBounded (updateGrid g dt t)) := by
  have hmk : ∀ radius : ℤ, TargetInRange (mkGrid radius) ∧ IntensityBounded (mkGrid radius) := by
    intro radius
    constructor <;> intro p hex hp <;> rw [mkGrid] at hp <;> simp only at hp <;>
      [skip; skip] <;> split at hp <;> simp_all [initialHex] <;> norm_num [← hp]
  refine ⟨hmk, ?_, ?_, waveIntensityAt_bounds, ?_, ?_, ?_⟩
  · intro g hT
    refine ⟨targetInRange_updateHexIntensity g hT, ?_, ?_, fun q r now => hT, ?_⟩
    · intro q r
      by_cases hs : g.hoveredHex = some (q, r)
      · rw [setHover, if_pos hs]
        exact hT
      · rw [setHover, if_neg hs]
        cases hh : g.hoveredHex with
        | none =>
          simp only [hh]
          split
          · exact targetInRange_updateHexIntensity _
              (targetInRange_congr (hoverSet_hexes g _) hT) q r 1
          · exact hT
        | some p0 =>
          simp only [hh]
          have hT1 : TargetInRange (updateHexIntensity g p0.1 p0.2 0) :=
            targetInRange_updateHexIntensity g hT p0.1 p0.2 0
          split
          · exact targetInRange_updateHexIntensity _
              (targetInRange_congr (hoverSet_hexes _ _) hT1) q r 1
          · exact hT1
    · intro q r ty p hex hp
      have hm := placeTile_intensities g q r ty p
      rw [hp] at hm
      obtain ⟨hex0, hh0, hval⟩ := Option.map_eq_some'.mp hm.symm
      have hval2 : hex0.targetIntensity = hex.targetIntensity := congrArg Prod.snd hval
      rw [← hval2]
      exact hT p hex0 hh0
    · intro dt t p hex hp
      simp only [updateGrid] at hp
      split at hp
      · obtain ⟨hex0, hh0, rfl⟩ := Option.map_eq_some'.mp hp
        rw [stepHex_targetIntensity]
        exact hT p hex0 hh0
      · exact hT p hex hp
  · intro g dt t p
    simp only [updateGrid]
    split
    · cases g.hexes p <;> simp [stepHex_targetIntensity]
    · rfl
  · intro g hT p hex hp t waves
    obtain ⟨_, hw1⟩ := waveIntensityAt_bounds t hex.q hex.r waves
    obtain ⟨_, ht1⟩ := hT p hex hp
    linarith
  · intro g hI
    refine ⟨?_, ?_, ?_, fun q r now => hI⟩
    · intro q r v
      exact intensityBounded_of_map_eq (updateHexIntensity_intensity g q r v) hI
    · intro q r
      exact intensityBounded_of_map_eq (setHover_intensity g q r) hI
    · intro q r ty
      refine intensityBounded_of_map_eq (fun p => ?_) hI
      have hm := placeTile_intensities g q r ty p
      cases hpt : (placeTile g q r ty).hexes p <;> cases hgp : g.hexes p <;>
        rw [hpt, hgp] at hm <;> simp_all
  · intro g hT hI dt t hdt hstep p hex hp
    simp only [updateGrid] at hp
    split at hp
    · obtain ⟨hex0, hh0, rfl⟩ := Option.map_eq_some'.mp hp
      exact stepHex_intensity_bounds t dt _ hex0 hdt hstep (hT p hex0 hh0) (hI p hex0 hh0)
    · exact hI p hex hp

/-- Witness for C10: after one frame update of a fresh radius-1 grid with
`dt = 1/10` (step factor `1/2 ≤ 1`), both invariants hold. -/
theorem intensity_invariants_witness :
    TargetInRange (updateGrid (mkGrid 1) (1 / 10) (1 / 10)) ∧
    IntensityBounded (updateGrid (mkGrid 1) (1 / 10) (1 / 10)) :=
  ⟨(intensity_invariants.2.1 (mkGrid 1) (intensity_invariants.1 1).1).2.2.2.2 (1 / 10) (1 / 10),
    intensity_invariants.2.2.2.2.2.2 (mkGrid 1) (intensity_invariants.1 1).1
      (intensity_invariants.1 1).2 (1 / 10) (1 / 10) (by norm_num) (by norm_num)⟩

/-! ### C2: cube rounding -/

/-- C2: `axialRound` rounds the cube coordinates `(x, z, y) = (q, r, -q-r)`
independently and then recomputes one coordinate from the other two: the
corrected cube triple always sums to 0 exactly, the returned (integer) pair
is the `(x, z)` part of that triple, and at least two of the three corrected
components are the independent roundings (the remaining one being the
recomputed, largest-error component). -/
theorem axialRound_cube_spec (q r : ℝ) :
    (axialRoundCube q r).1 + (axialRoundCube q r).2.1 + (axialRoundCube q r).2.2 = 0 ∧
    axialRound q r = ((axialRoundCube q r).1, (axialRoundCube q r).2.2) ∧
    (((axialRoundCube q r).2.1 = round (-q - r) ∧ (axialRoundCube q r).2.2 = round r) ∨
      ((axialRoundCube q r).1 = round q ∧ (axialRoundCube q r).2.2 = round r) ∨
      ((axialRoundCube q r).1 = round q ∧ (axialRoundCube q r).2.1 = round (-q - r))) := by
  refine ⟨?_, rfl, ?_⟩
  · simp only [axialRoundCube]
    split
    · ring
    · split
      · ring
      · ring
  · simp only [axialRoundCube]
    split
    · exact Or.inl ⟨rfl, rfl⟩
    · split
      · exact Or.inr (Or.inl ⟨rfl, rfl⟩)
      · exact Or.inr (Or.inr ⟨rfl, rfl⟩)

/-! ### C1: coordinate round trip -/

/-- Cube rounding is the identity on exact integer axial pairs. -/
theorem axialRound_intCast (q r : ℤ) : axialRound (q : ℝ) (r : ℝ) = (q, r) := by
  have h1 : round ((q : ℝ)) = q := round_intCast q
  have h2 : round ((r : ℝ)) = r := round_intCast r
  have h3 : round (-(q : ℝ) - (r : ℝ)) = -q - r := by
    rw [show -(q : ℝ) - (r : ℝ) = ((-q - r : ℤ) : ℝ) by push_cast; ring, round_intCast]
  simp only [axialRound, axialRoundCube, h1, h2, h3]
  push_cast
  norm_num

/-- C1: for every integer pair `(q, r)`, `worldToAxial` applied to
`axialToWorld (q, r)` returns exactly `(q, r)`. -/
theorem worldToAxial_axialToWorld (q r : ℤ) :
    worldToAxial (axialToWorld (q : ℝ) (r : ℝ)).1 (axialToWorld (q : ℝ) (r : ℝ)).2 =
      (q, r) := by
  have hs : Real.sqrt 3 * Real.sqrt 3 = 3 := Real.mul_self_sqrt (by norm_num)
  have hx : ((axialToWorld (q : ℝ) (r : ℝ)).1 * Real.sqrt 3 / 3 -
      (axialToWorld (q : ℝ) (r : ℝ)).2 / 3) / HEX_SIZE = ((q : ℝ)) := by
    simp only [axialToWorld, HEX_SIZE]
    linear_combination ((q : ℝ) + (r : ℝ) / 2) / 3 * hs
  have hz : ((axialToWorld (q : ℝ) (r : ℝ)).2 * 2 / 3) / HEX_SIZE = ((r : ℝ)) := by
    simp only [axialToWorld, HEX_SIZE]
    ring
  rw [worldToAxial, hx, hz, axialRound_intCast]

end VibeCity
